import Mathlib

/-!
Verification of `main.go`, the one source file of my-non-macos-games.

The program fetches the list of games a Steam account owns, asks the store,
once per game and concurrently, whether the game runs on macOS, collects the
answers over a buffered channel and writes the names into `mac_games.txt` and
`non_mac_games.txt`.

The embedding is shallow. Everything outside the program (the `.env` loader,
the process environment, `http.Get`, `io.ReadAll`, `json.Unmarshal`,
`url.QueryEscape`, `os.Create`) is a field of `World`; the functions of
`main.go` are Lean functions over it. A `log.Fatal` is the `fatal` field of an
`Outcome`, or the `error` side of `Except Fatal`. Line numbers are those of
`main.go`.
-/

namespace MyNonMacosGames

/-! ## Data model -/

/-- Line 22: `BASE_URL`. -/
def BASE_URL : String := "http://api.steampowered.com"

/-- Line 23: `STORE_URL`. -/
def STORE_URL : String := "https://store.steampowered.com/api/appdetails"

/-- Lines 26-29: the value a probe goroutine sends on `resultChan`. -/
structure gameResult where
  name : String
  supportsMac : Bool
deriving DecidableEq, Repr

/-- Lines 118-120: one entry of the owned-games list. -/
structure SteamGame where
  AppID : Int
deriving DecidableEq, Repr

/-- The inner struct of `SteamGamesResponse` (lines 112-115). -/
structure SteamGamesInner where
  Games : List SteamGame
  GameCount : Int
deriving DecidableEq, Repr

/-- Lines 111-116. -/
structure SteamGamesResponse where
  Response : SteamGamesInner
deriving DecidableEq, Repr

/-- Lines 161-163: `Platforms`. -/
structure StorePlatforms where
  Mac : Bool
deriving DecidableEq, Repr

/-- Lines 159-164: `Data`. -/
structure StoreData where
  Name : String
  Platforms : StorePlatforms
deriving DecidableEq, Repr

/-- Lines 157-165. -/
structure StoreGameResponse where
  Success : Bool
  Data : StoreData
deriving DecidableEq, Repr

/-- A Go `map[string]StoreGameResponse`: the two-valued lookup `v, ok := m[k]`
is `m k = some v` (ok) or `m k = none` (not ok). -/
abbrev StoreMap := String → Option StoreGameResponse

/-- What `http.Get` followed by `io.ReadAll` gives for one URL. -/
inductive HttpResult where
  /-- `http.Get` returned a non-nil error. -/
  | getErr
  /-- `http.Get` succeeded and `io.ReadAll(resp.Body)` returned a non-nil error. -/
  | readErr
  /-- Both succeeded; `b` is the body. -/
  | body (b : String)
deriving DecidableEq, Repr

/-- Everything the program reaches outside itself. -/
structure World where
  /-- `godotenv.Load(".env")` returned a nil error. -/
  dotenvOk : Bool
  /-- `os.Getenv`, after the `.env` file has been loaded. -/
  getenv : String → String
  /-- `url.QueryEscape`, used by `url.Values.Encode` on the values. -/
  queryEscape : String → String
  /-- `http.Get` and `io.ReadAll` on the URL. -/
  httpGet : String → HttpResult
  /-- `json.Unmarshal(body, &steamGamesResponse)`; `none` is a non-nil error. -/
  unmarshalGames : String → Option SteamGamesResponse
  /-- `json.Unmarshal(body, &response)` into the store map; `none` is a non-nil error. -/
  unmarshalStore : String → Option StoreMap
  /-- `os.Create` of the named file returned a nil error. -/
  createOk : String → Bool

/-- The `log.Fatal` calls of the program, by place. Each prints its message and
exits the process with status 1. -/
inductive Fatal where
  /-- Line 34, "Error loading .env file". -/
  | loadEnv
  /-- Line 41, "API_KEY and STEAM_ID_64 must be set". -/
  | missingConfig
  /-- Line 46, "Error getting Steam games". -/
  | gettingGames
  /-- Line 139, "Error fetching Steam games". -/
  | fetchingGames
  /-- Line 145, "Error reading Steam games". -/
  | readingGames
  /-- Line 151, "Error parsing Steam games". -/
  | parsingGames
  /-- Line 86, "Error creating mac_games.txt". -/
  | createMac
  /-- Line 92, "Error creating non_mac_games.txt". -/
  | createNonMac
deriving DecidableEq, Repr

/-! ## The probe: `checkMacOSSupport` -/

/-- The verb `%d` of `fmt.Sprintf` on an `int`. -/
def fmtD (n : Int) : String := toString n

/-- Line 168: the URL of the store request for `appID`. -/
def storeURL (appID : Int) : String := STORE_URL ++ "?appids=" ++ fmtD appID

/-- What one call of `checkMacOSSupport` does: the two values it returns and
the lines it prints on standard output. -/
structure ProbeRun where
  supportsMac : Bool
  name : String
  stdout : List String
deriving DecidableEq, Repr

/-- Lines 167-205. -/
def checkMacOSSupport (w : World) (appID : Int) : ProbeRun :=
  match w.httpGet (storeURL appID) with
  | HttpResult.getErr => ⟨false, "", []⟩
  | HttpResult.readErr => ⟨false, "", []⟩
  | HttpResult.body body =>
    match w.unmarshalStore body with
    | none => ⟨false, "", []⟩
    | some response =>
      match response (fmtD appID) with
      | none => ⟨false, "", []⟩
      | some gameResponse =>
        if !gameResponse.Success then ⟨false, "", []⟩
        else
          let supportsMac := gameResponse.Data.Platforms.Mac
          if supportsMac then
            ⟨supportsMac, gameResponse.Data.Name, ["✅ " ++ gameResponse.Data.Name ++ "\n"]⟩
          else
            ⟨supportsMac, gameResponse.Data.Name, ["❌ " ++ gameResponse.Data.Name ++ "\n"]⟩

/-- Lines 61-65: the value the goroutine for `appID` sends on `resultChan`. -/
def probe (w : World) (appID : Int) : gameResult :=
  let r := checkMacOSSupport w appID
  { name := r.name, supportsMac := r.supportsMac }

/-! ## The fetch: `getSteamGames` -/

/-- Lines 123-135: the URL of the owned-games request. `url.Values.Encode`
emits the parameters sorted by key, each value query-escaped; the keys and the
two constant values contain nothing that is escaped. -/
def ownedGamesURL (w : World) (apiKey steamID : String) : String :=
  BASE_URL ++ "/IPlayerService/GetOwnedGames/v0001/?" ++
    "format=json&include_appinfo=True&key=" ++ w.queryEscape apiKey ++
    "&steamid=" ++ w.queryEscape steamID

/-- Lines 122-155. `Except.error f` is a `log.Fatal` inside the function: the
process exits and nothing is returned. `Except.ok (games, err)` is a return to
the caller with the Go `error` value `err` (`none` is `nil`). The globals
`API_KEY` and `STEAM_ID` are passed in. -/
def getSteamGames (w : World) (apiKey steamID : String) :
    Except Fatal (List SteamGame × Option String) :=
  match w.httpGet (ownedGamesURL w apiKey steamID) with
  | HttpResult.getErr => Except.error Fatal.fetchingGames
  | HttpResult.readErr => Except.error Fatal.readingGames
  | HttpResult.body body =>
    match w.unmarshalGames body with
    | none => Except.error Fatal.parsingGames
    | some steamGamesResponse => Except.ok (steamGamesResponse.Response.Games, none)

/-! ## The collector and the writer -/

/-- Lines 75-81, one iteration of the `range resultChan` loop on the pair
`(macGames, nonMacGames)`. -/
def collectStep (acc : List String × List String) (result : gameResult) :
    List String × List String :=
  if result.supportsMac then (acc.1 ++ [result.name], acc.2)
  else (acc.1, acc.2 ++ [result.name])

/-- Lines 49-50 and 75-81: the lists `(macGames, nonMacGames)` after the loop
has received `results`, in this order. -/
def collect (results : List gameResult) : List String × List String :=
  results.foldl collectStep ([], [])

/-- Lines 96-101 (and 103-108): the arguments of the successive `WriteString`
calls on one file, for the list the loop ranges over. -/
def writeGames : List String → List String
  | [] => []
  | game :: rest => if game = "" then writeGames rest else (game ++ "\n") :: writeGames rest

/-- The lines 96-101 loop again, recording the entry (the game name) of each
`WriteString` call rather than its argument. -/
def writtenEntries : List String → List String
  | [] => []
  | game :: rest => if game = "" then writtenEntries rest else game :: writtenEntries rest

/-- The content of a file after the given `WriteString` calls. -/
def fileContent (writes : List String) : String := String.join writes

/-! ## `main` -/

/-- The order in which the results of the launched probes reach the collector.
The probes run concurrently, so the order is the scheduler's choice; `sched`
encodes it: each number picks, modulo the count of results not yet received,
which of them is received next. Once `sched` is used up the rest arrives in
launch order. -/
def arrivalOrder {α : Type} : List Nat → List α → List α
  | [], pending => pending
  | k :: ks, pending =>
    match pending[k % pending.length]? with
    | none => []
    | some r => r :: arrivalOrder ks (pending.eraseIdx (k % pending.length))

/-- What a run of the program did, as far as it is observable. -/
structure Outcome where
  /-- The `log.Fatal` that ended the run, `none` when `main` returned. -/
  fatal : Option Fatal
  /-- The URLs given to `http.Get`: the owned-games request first, then the
  store requests in launch order of their goroutines. -/
  requests : List String
  /-- The `appID`s for which a probe goroutine was started (lines 59-66). -/
  launched : List Int
  /-- The files created with `os.Create`, in creation order, each with the
  arguments of the `WriteString` calls made on it. -/
  files : List (String × List String)
deriving DecidableEq, Repr

/-- Lines 31-109. -/
def main (w : World) (sched : List Nat) : Outcome :=
  if !w.dotenvOk then
    { fatal := some Fatal.loadEnv, requests := [], launched := [], files := [] }
  else
    let API_KEY := w.getenv "API_KEY"
    let STEAM_ID := w.getenv "STEAM_ID_64"
    if API_KEY = "" ∨ STEAM_ID = "" then
      { fatal := some Fatal.missingConfig, requests := [], launched := [], files := [] }
    else
      let fetchURL := ownedGamesURL w API_KEY STEAM_ID
      match getSteamGames w API_KEY STEAM_ID with
      | Except.error f =>
        { fatal := some f, requests := [fetchURL], launched := [], files := [] }
      | Except.ok (_, some _) =>
        { fatal := some Fatal.gettingGames, requests := [fetchURL], launched := [], files := [] }
      | Except.ok (steamGames, none) =>
        let launched := steamGames.map SteamGame.AppID
        let requests := fetchURL :: launched.map storeURL
        let received := arrivalOrder sched (launched.map (probe w))
        let macGames := (collect received).1
        let nonMacGames := (collect received).2
        if !w.createOk "mac_games.txt" then
          { fatal := some Fatal.createMac, requests := requests, launched := launched,
            files := [] }
        else if !w.createOk "non_mac_games.txt" then
          { fatal := some Fatal.createNonMac, requests := requests, launched := launched,
            files := [("mac_games.txt", [])] }
        else
          { fatal := none, requests := requests, launched := launched,
            files := [("mac_games.txt", writeGames macGames),
                      ("non_mac_games.txt", writeGames nonMacGames)] }

/-- The names of the results with the given flag and a non-empty name, in
order: what the specification calls a partition. -/
def partitionOf (flag : Bool) (results : List gameResult) : List String :=
  (results.filter (fun r => r.supportsMac == flag && r.name != "")).map gameResult.name

/-- Splitting file content on the newline character, the last piece (what
follows the last terminator) left out. -/
def splitLines (content : String) : List String :=
  ((content.toList.splitOn '\n').dropLast).map String.mk

/-! ## An example world -/

/-- A world for the examples: the configuration is complete, the owned-games
request answers with the games 10, 20 and 30, the store answers for 10 with a
successful envelope (name "A", mac), for 20 with a successful envelope (name
"B", no mac), for 40 with an envelope under the key "41" only, for 50 with
`success:false`, for 60 with a body that does not parse; every other request
fails in transport. -/
def exampleWorld : World where
  dotenvOk := true
  getenv := fun k => if k = "API_KEY" then "key" else if k = "STEAM_ID_64" then "76561" else ""
  queryEscape := fun v => v
  httpGet := fun u =>
    if u = BASE_URL ++ "/IPlayerService/GetOwnedGames/v0001/?" ++
        "format=json&include_appinfo=True&key=key&steamid=76561" then HttpResult.body "owned"
    else if u = storeURL 10 then HttpResult.body "r10"
    else if u = storeURL 20 then HttpResult.body "r20"
    else if u = storeURL 40 then HttpResult.body "r40"
    else if u = storeURL 50 then HttpResult.body "r50"
    else if u = storeURL 60 then HttpResult.body "<html>"
    else HttpResult.getErr
  unmarshalGames := fun b =>
    if b = "owned" then some ⟨⟨[⟨10⟩, ⟨20⟩, ⟨30⟩], 3⟩⟩ else none
  unmarshalStore := fun b =>
    if b = "r10" then some (fun k => if k = "10" then some ⟨true, ⟨"A", ⟨true⟩⟩⟩ else none)
    else if b = "r20" then some (fun k => if k = "20" then some ⟨true, ⟨"B", ⟨false⟩⟩⟩ else none)
    else if b = "r40" then some (fun k => if k = "41" then some ⟨true, ⟨"D", ⟨true⟩⟩⟩ else none)
    else if b = "r50" then some (fun k => if k = "50" then some ⟨false, ⟨"E", ⟨true⟩⟩⟩ else none)
    else none
  createOk := fun _ => true

/-! ## The fan-out and the collector, goroutine by goroutine (lines 53-81)

The goroutines of lines 53-81 are the main goroutine, one probe goroutine per
owned game and the closer. Each atomic step below is one operation of the
source on the shared `resultChan` or `wg`, or the call of `checkMacOSSupport`.
A step that Go would block on is not enabled (`none`); a step that Go would
panic on (a send on a closed channel, a second `close`, a negative `WaitGroup`
counter) sets `panicked`. The call of `checkMacOSSupport` is one step of its
goroutine: it is taken to return. -/

/-- Where the main goroutine stands in lines 59-81. -/
inductive MainPc where
  /-- At the head of the loop of line 59; `rest` are the `appID`s still to range over. -/
  | launching (rest : List Int)
  /-- After `wg.Add(1)` (line 60), before the `go` statement of line 61 for `appID`. -/
  | spawning (appID : Int) (rest : List Int)
  /-- In the `range resultChan` loop of line 75. -/
  | collecting
  /-- Past the loop of line 75. -/
  | collected
deriving DecidableEq, Repr

/-- Where a probe goroutine stands in lines 61-65. -/
inductive ProbePc where
  /-- Started; `checkMacOSSupport` (line 63) has not yet returned. -/
  | calling
  /-- About to send `r` on `resultChan` (line 64). -/
  | sending (r : gameResult)
  /-- The send is done; the deferred `wg.Done()` (line 62) is still to run. -/
  | finishing
  /-- The goroutine has ended. -/
  | exited
deriving DecidableEq, Repr

/-- A probe goroutine: the argument it was started with and where it stands. -/
structure Goroutine where
  appID : Int
  pc : ProbePc
deriving DecidableEq, Repr

/-- Where the closer goroutine stands in lines 69-72. -/
inductive CloserPc where
  /-- In `wg.Wait()` (line 70). -/
  | waiting
  /-- `wg.Wait()` has returned; `close(resultChan)` (line 71) is still to run. -/
  | closing
  /-- The goroutine has ended. -/
  | exited
deriving DecidableEq, Repr

/-- The state shared by the goroutines of lines 53-81. -/
structure Fanout where
  mainPc : MainPc
  /-- The probe goroutines started so far, in launch order. -/
  probes : List Goroutine
  /-- The closer goroutine, `none` before the `go` statement of line 69. -/
  closer : Option CloserPc
  /-- The counter of `wg`. -/
  wg : Nat
  /-- The capacity of `resultChan` (line 53). -/
  cap : Nat
  /-- The buffer of `resultChan`, oldest first. -/
  buffer : List gameResult
  /-- Whether `resultChan` has been closed. -/
  closed : Bool
  /-- The results the loop of line 75 has received so far, oldest first. -/
  received : List gameResult
  /-- The list `macGames`. -/
  macGames : List String
  /-- The list `nonMacGames`. -/
  nonMacGames : List String
  /-- A goroutine has panicked: the process is dead. -/
  panicked : Bool
deriving DecidableEq, Repr

/-- The goroutine the scheduler lets take the next step. -/
inductive Thread where
  | main
  /-- The probe goroutine started `i`-th (from 0). -/
  | probe (i : Nat)
  | closer
deriving DecidableEq, Repr

/-- Lines 49-56: the state when the loop of line 59 is entered. -/
def initFanout (steamGames : List SteamGame) : Fanout :=
  { mainPc := MainPc.launching (steamGames.map SteamGame.AppID),
    probes := [], closer := none, wg := 0, cap := steamGames.length,
    buffer := [], closed := false, received := [],
    macGames := [], nonMacGames := [], panicked := false }

/-- One step of the main goroutine. -/
def stepMain (s : Fanout) : Option Fanout :=
  match s.mainPc with
  | MainPc.launching (appID :: rest) =>
    -- line 60: wg.Add(1)
    some { s with wg := s.wg + 1, mainPc := MainPc.spawning appID rest }
  | MainPc.spawning appID rest =>
    -- line 61: go func(appID int) ...
    some { s with probes := s.probes ++ [{ appID := appID, pc := ProbePc.calling }],
                  mainPc := MainPc.launching rest }
  | MainPc.launching [] =>
    -- line 69: go func() ... once the loop of line 59 is over
    some { s with closer := some CloserPc.waiting, mainPc := MainPc.collecting }
  | MainPc.collecting =>
    match s.buffer with
    | result :: rest =>
      -- lines 75-81: receive the oldest buffered result and append its name
      some { s with buffer := rest, received := s.received ++ [result],
                    macGames := (collectStep (s.macGames, s.nonMacGames) result).1,
                    nonMacGames := (collectStep (s.macGames, s.nonMacGames) result).2 }
    | [] =>
      -- an empty, closed channel ends the range loop; an empty, open one blocks
      if s.closed then some { s with mainPc := MainPc.collected } else none
  | MainPc.collected => none

/-- One step of the probe goroutine started `i`-th. -/
def stepProbe (w : World) (s : Fanout) (i : Nat) : Option Fanout :=
  match s.probes[i]? with
  | none => none
  | some g =>
    match g.pc with
    | ProbePc.calling =>
      -- line 63: checkMacOSSupport(appID) returns
      some { s with probes := s.probes.set i { g with pc := ProbePc.sending (probe w g.appID) } }
    | ProbePc.sending r =>
      -- line 64: resultChan <- r
      if s.closed then some { s with panicked := true }
      else if s.buffer.length < s.cap then
        some { s with buffer := s.buffer ++ [r],
                      probes := s.probes.set i { g with pc := ProbePc.finishing } }
      else none
    | ProbePc.finishing =>
      -- line 62: the deferred wg.Done()
      if s.wg = 0 then some { s with panicked := true }
      else some { s with wg := s.wg - 1,
                         probes := s.probes.set i { g with pc := ProbePc.exited } }
    | ProbePc.exited => none

/-- One step of the closer goroutine. -/
def stepCloser (s : Fanout) : Option Fanout :=
  match s.closer with
  | none => none
  | some CloserPc.waiting =>
    -- line 70: wg.Wait() returns once the counter is zero
    if s.wg = 0 then some { s with closer := some CloserPc.closing } else none
  | some CloserPc.closing =>
    -- line 71: close(resultChan)
    if s.closed then some { s with panicked := true }
    else some { s with closed := true, closer := some CloserPc.exited }
  | some CloserPc.exited => none

/-- One step of the goroutine `t`; `none` when `t` cannot move (it is blocked,
has ended, does not exist, or the process has panicked). -/
def step (w : World) (s : Fanout) (t : Thread) : Option Fanout :=
  if s.panicked then none
  else
    match t with
    | Thread.main => stepMain s
    | Thread.probe i => stepProbe w s i
    | Thread.closer => stepCloser s

/-- The state after the interleaving `sched`, each goroutine named taking one
step in turn; `none` when a goroutine named cannot move at its turn, so that
`sched` is not an interleaving of the program. -/
def runSched (w : World) (s : Fanout) : List Thread → Option Fanout
  | [] => some s
  | t :: rest =>
    match step w s t with
    | none => none
    | some s' => runSched w s' rest

/-! ### What the proofs about the goroutines measure -/

/-- The results the probe goroutine `g` has put on the channel so far: its one
result once its send is done, nothing before. -/
def sentOf (w : World) (g : Goroutine) : List gameResult :=
  match g.pc with
  | ProbePc.calling => []
  | ProbePc.sending _ => []
  | ProbePc.finishing => [probe w g.appID]
  | ProbePc.exited => [probe w g.appID]

/-- The results sent so far by all the probe goroutines of the list. -/
def sentResults (w : World) (gs : List Goroutine) : List gameResult :=
  gs.flatMap (sentOf w)

/-- 1 for a probe goroutine whose `wg.Done()` has not run yet, 0 after. -/
def notDone (g : Goroutine) : Nat :=
  match g.pc with
  | ProbePc.exited => 0
  | _ => 1

/-- The number of probe goroutines of the list whose `wg.Done()` has not run yet. -/
def active (gs : List Goroutine) : Nat := (gs.map notDone).sum

/-- The steps still ahead because of one probe goroutine: its own, and the
receive of its result unless that result is already in the buffer or received. -/
def probeWeight (g : Goroutine) : Nat :=
  match g.pc with
  | ProbePc.calling => 4
  | ProbePc.sending _ => 3
  | ProbePc.finishing => 1
  | ProbePc.exited => 0

/-- The `appID`s for which the main goroutine has not yet run its `go` statement. -/
def toLaunch : MainPc → List Int
  | MainPc.launching rest => rest
  | MainPc.spawning appID rest => appID :: rest
  | MainPc.collecting => []
  | MainPc.collected => []

/-- The `wg.Add(1)` calls not yet matched by a started goroutine. -/
def addedAhead : MainPc → Nat
  | MainPc.spawning _ _ => 1
  | _ => 0

/-- The steps still ahead of the main goroutine, those of the goroutines it has
yet to start included, the receives left out. -/
def mainWeight : MainPc → Nat
  | MainPc.launching rest => 6 * rest.length + 2
  | MainPc.spawning _ rest => 6 * rest.length + 7
  | MainPc.collecting => 1
  | MainPc.collected => 0

/-- The steps still ahead of the closer goroutine. -/
def closerWeight : Option CloserPc → Nat
  | none => 2
  | some CloserPc.waiting => 2
  | some CloserPc.closing => 1
  | some CloserPc.exited => 0

/-- The number of steps still ahead of the whole program in state `s`. -/
def stepsLeft (s : Fanout) : Nat :=
  mainWeight s.mainPc + closerWeight s.closer + (s.probes.map probeWeight).sum + s.buffer.length

/-- The invariant of lines 53-81, for the owned games `ids` in the world `w`. -/
structure FanoutInv (w : World) (ids : List Int) (s : Fanout) : Prop where
  noPanic : s.panicked = false
  cap_eq : s.cap = ids.length
  ids_eq : s.probes.map Goroutine.appID ++ toLaunch s.mainPc = ids
  wg_eq : s.wg = active s.probes + addedAhead s.mainPc
  closer_none : s.closer = none ↔ toLaunch s.mainPc ≠ [] ∨ s.mainPc = MainPc.launching []
  closed_iff : s.closed = true ↔ s.closer = some CloserPc.exited
  closing_wg : s.closer = some CloserPc.closing ∨ s.closer = some CloserPc.exited → s.wg = 0
  sending_ok : ∀ g ∈ s.probes, ∀ r, g.pc = ProbePc.sending r → r = probe w g.appID
  perm : (s.received ++ s.buffer).Perm (sentResults w s.probes)
  collected_ok : s.mainPc = MainPc.collected → s.closed = true ∧ s.buffer = []
  acc : (s.macGames, s.nonMacGames) = collect s.received

/-! ## Lemmas on the collector and the writer -/

theorem foldl_collectStep (results : List gameResult) (acc : List String × List String) :
    results.foldl collectStep acc =
      (acc.1 ++ (results.filter (fun r => r.supportsMac)).map gameResult.name,
       acc.2 ++ (results.filter (fun r => !r.supportsMac)).map gameResult.name) := by
  induction results generalizing acc with
  | nil => simp
  | cons r rest ih =>
    rw [List.foldl_cons, ih]
    cases h : r.supportsMac <;> simp [collectStep, h]

theorem collect_fst (results : List gameResult) :
    (collect results).1 = (results.filter (fun r => r.supportsMac)).map gameResult.name := by
  simp [collect, foldl_collectStep]

theorem collect_snd (results : List gameResult) :
    (collect results).2 = (results.filter (fun r => !r.supportsMac)).map gameResult.name := by
  simp [collect, foldl_collectStep]

theorem writtenEntries_eq_filter (games : List String) :
    writtenEntries games = games.filter (fun g => g != "") := by
  induction games with
  | nil => rfl
  | cons g rest ih =>
    by_cases h : g = "" <;> simp [writtenEntries, h, ih]

theorem writeGames_eq_map (games : List String) :
    writeGames games = (writtenEntries games).map (fun g => g ++ "\n") := by
  induction games with
  | nil => rfl
  | cons g rest ih =>
    by_cases h : g = "" <;> simp [writeGames, writtenEntries, h, ih]

theorem writtenEntries_collect_fst (results : List gameResult) :
    writtenEntries (collect results).1 = partitionOf true results := by
  rw [collect_fst, writtenEntries_eq_filter, partitionOf, List.filter_map, List.filter_filter]
  congr 1
  apply List.filter_congr
  intro r _
  cases r.supportsMac <;> simp [Function.comp]

theorem writtenEntries_collect_snd (results : List gameResult) :
    writtenEntries (collect results).2 = partitionOf false results := by
  rw [collect_snd, writtenEntries_eq_filter, partitionOf, List.filter_map, List.filter_filter]
  congr 1
  apply List.filter_congr
  intro r _
  cases r.supportsMac <;> simp [Function.comp]

theorem partitionOf_length_add (results : List gameResult) :
    (partitionOf true results).length + (partitionOf false results).length =
      (results.filter (fun r => r.name != "")).length := by
  induction results with
  | nil => rfl
  | cons r rest ih =>
    simp only [partitionOf, List.length_map, beq_true, beq_false] at ih ⊢
    by_cases hn : r.name = "" <;> cases hs : r.supportsMac <;>
      simp [List.filter_cons, hn, hs] <;> omega

theorem splitOn_flatten_terminated (sep : Char) (ls : List (List Char))
    (h : ∀ l ∈ ls, sep ∉ l) :
    ((ls.map (fun l => l ++ [sep])).flatten).splitOn sep = ls ++ [[]] := by
  induction ls with
  | nil => rfl
  | cons hd tl ih =>
    have hhd : ∀ x ∈ hd, ¬ ((fun y => y == sep) x = true) := by
      intro x hx hxs
      have : x = sep := by simpa using hxs
      exact h hd (List.mem_cons_self _ _) (this ▸ hx)
    have htl := ih (fun l hl => h l (List.mem_cons_of_mem _ hl))
    simp only [List.splitOn] at htl ⊢
    simp only [List.map_cons, List.flatten_cons, List.append_assoc, List.singleton_append,
      List.cons_append]
    rw [List.splitOnP_first (fun y => y == sep) hd hhd sep (by simp), List.nil_append, htl]

theorem splitLines_fileContent_writeGames (games : List String)
    (h : ∀ g ∈ games, '\n' ∉ g.toList) :
    splitLines (fileContent (writeGames games)) = writtenEntries games := by
  have hd : (fileContent (writeGames games)).toList =
      (((writtenEntries games).map String.toList).map (fun l => l ++ ['\n'])).flatten := by
    simp only [fileContent, String.toList, String.data_join, writeGames_eq_map, List.map_map]
    congr 1
  have hsub : ∀ l ∈ (writtenEntries games).map String.toList, '\n' ∉ l := by
    intro l hl
    obtain ⟨g, hg, rfl⟩ := List.mem_map.1 hl
    rw [writtenEntries_eq_filter] at hg
    exact h g (List.mem_filter.1 hg).1
  rw [splitLines, hd, splitOn_flatten_terminated '\n' _ hsub, List.dropLast_concat,
    List.map_map]
  conv_rhs => rw [← List.map_id (writtenEntries games)]
  apply List.map_congr_left
  intro g _
  rfl

theorem perm_cons_eraseIdx {α : Type} (l : List α) (i : Nat) (a : α) (h : l[i]? = some a) :
    (a :: l.eraseIdx i).Perm l := by
  induction l generalizing i with
  | nil => simp at h
  | cons x xs ih =>
    cases i with
    | zero =>
      have hx : x = a := by simpa using h
      subst hx
      exact List.Perm.refl _
    | succ j =>
      have hj : xs[j]? = some a := by simpa using h
      exact (List.Perm.swap x a _).trans ((ih j hj).cons x)

theorem arrivalOrder_perm {α : Type} (sched : List Nat) (pending : List α) :
    (arrivalOrder sched pending).Perm pending := by
  induction sched generalizing pending with
  | nil => exact List.Perm.refl _
  | cons k ks ih =>
    cases hget : pending[k % pending.length]? with
    | none =>
      have hlen : pending.length ≤ k % pending.length := List.getElem?_eq_none_iff.1 hget
      have hnil : pending = [] := by
        cases pending with
        | nil => rfl
        | cons x xs =>
          exfalso
          have hlt : k % (x :: xs).length < (x :: xs).length :=
            Nat.mod_lt k (by simp)
          omega
      simp [arrivalOrder, hget, hnil]
    | some r =>
      simp only [arrivalOrder, hget]
      exact ((ih _).cons r).trans (perm_cons_eraseIdx pending _ r hget)

theorem main_files (w : World) (sched : List Nat) (h : (main w sched).fatal = none) :
    (main w sched).files =
      [("mac_games.txt",
          writeGames (collect (arrivalOrder sched ((main w sched).launched.map (probe w)))).1),
       ("non_mac_games.txt",
          writeGames (collect (arrivalOrder sched ((main w sched).launched.map (probe w)))).2)] := by
  unfold main at h ⊢
  cases hd : w.dotenvOk
  · simp [hd] at h
  · by_cases hcfg : w.getenv "API_KEY" = "" ∨ w.getenv "STEAM_ID_64" = ""
    · simp [hd, hcfg] at h
    · simp only [hd, Bool.not_true, Bool.false_eq_true, if_false, hcfg] at h ⊢
      cases hg : getSteamGames w (w.getenv "API_KEY") (w.getenv "STEAM_ID_64") with
      | error f => simp [hg] at h
      | ok r =>
        obtain ⟨games, err⟩ := r
        cases err with
        | some e => simp [hg] at h
        | none =>
          simp only [hg] at h ⊢
          cases hc1 : w.createOk "mac_games.txt"
          · simp [hc1] at h
          · cases hc2 : w.createOk "non_mac_games.txt"
            · simp [hc1, hc2] at h
            · simp


/-! ## Lemmas on the goroutines -/

theorem sum_map_set (f : Goroutine → Nat) (l : List Goroutine) (i : Nat) (g g' : Goroutine)
    (h : l[i]? = some g) :
    ((l.set i g').map f).sum + f g = (l.map f).sum + f g' := by
  induction l generalizing i with
  | nil => simp at h
  | cons x xs ih =>
    cases i with
    | zero =>
      have hx : x = g := by simpa using h
      subst hx
      simp only [List.set_cons_zero, List.map_cons, List.sum_cons]
      omega
    | succ j =>
      have hj : xs[j]? = some g := by simpa using h
      have := ih j hj
      simp only [List.set_cons_succ, List.map_cons, List.sum_cons]
      omega

theorem map_appID_set (l : List Goroutine) (i : Nat) (g g' : Goroutine)
    (h : l[i]? = some g) (hid : g'.appID = g.appID) :
    (l.set i g').map Goroutine.appID = l.map Goroutine.appID := by
  induction l generalizing i with
  | nil => simp
  | cons x xs ih =>
    cases i with
    | zero =>
      have hx : x = g := by simpa using h
      subst hx
      simp [hid]
    | succ j =>
      have hj : xs[j]? = some g := by simpa using h
      simp [ih j hj]

theorem sentResults_set_same (w : World) (l : List Goroutine) (i : Nat) (g g' : Goroutine)
    (h : l[i]? = some g) (hs : sentOf w g' = sentOf w g) :
    sentResults w (l.set i g') = sentResults w l := by
  induction l generalizing i with
  | nil => simp
  | cons x xs ih =>
    cases i with
    | zero =>
      have hx : x = g := by simpa using h
      subst hx
      simp [sentResults, hs]
    | succ j =>
      have hj : xs[j]? = some g := by simpa using h
      have := ih j hj
      simp only [sentResults] at this ⊢
      simp [this]

theorem sentResults_set_new (w : World) (l : List Goroutine) (i : Nat) (g g' : Goroutine)
    (r : gameResult) (h : l[i]? = some g) (hg : sentOf w g = []) (hg' : sentOf w g' = [r]) :
    (sentResults w (l.set i g')).Perm (sentResults w l ++ [r]) := by
  induction l generalizing i with
  | nil => simp at h
  | cons x xs ih =>
    cases i with
    | zero =>
      have hx : x = g := by simpa using h
      subst hx
      simp only [sentResults, List.set_cons_zero, List.flatMap_cons, hg, hg', List.nil_append,
        List.singleton_append]
      exact (List.perm_append_singleton r _).symm
    | succ j =>
      have hj : xs[j]? = some g := by simpa using h
      have := ih j hj
      simp only [sentResults, List.set_cons_succ, List.flatMap_cons, List.append_assoc] at this ⊢
      exact this.append_left _

theorem sentOf_length_le (w : World) (g : Goroutine) : (sentOf w g).length ≤ 1 := by
  obtain ⟨appID, pc⟩ := g
  cases pc <;> simp [sentOf]

theorem sentResults_length_le (w : World) (l : List Goroutine) :
    (sentResults w l).length ≤ l.length := by
  induction l with
  | nil => simp [sentResults]
  | cons x xs ih =>
    have hx := sentOf_length_le w x
    simp only [sentResults, List.flatMap_cons, List.length_append, List.length_cons] at ih ⊢
    omega

theorem sentResults_length_lt (w : World) (l : List Goroutine) (g : Goroutine) (hg : g ∈ l)
    (hs : sentOf w g = []) : (sentResults w l).length < l.length := by
  induction l with
  | nil => simp at hg
  | cons x xs ih =>
    have hle := sentResults_length_le w xs
    rcases List.mem_cons.1 hg with h | h
    · subst h
      simp only [sentResults, List.flatMap_cons, hs, List.nil_append, List.length_cons] at hle ⊢
      omega
    · have := ih h
      have hx := sentOf_length_le w x
      simp only [sentResults, List.flatMap_cons, List.length_append, List.length_cons] at this ⊢
      omega

theorem exited_of_active_zero (l : List Goroutine) (h : active l = 0) :
    ∀ g ∈ l, g.pc = ProbePc.exited := by
  induction l with
  | nil => simp
  | cons x xs ih =>
    simp only [active, List.map_cons, List.sum_cons] at h
    have hx : notDone x = 0 := by omega
    have hxs : active xs = 0 := by simp only [active]; omega
    intro g hg
    rcases List.mem_cons.1 hg with h' | h'
    · subst h'
      obtain ⟨appID, pc⟩ := g
      cases pc <;> simp [notDone] at hx ⊢
    · exact ih hxs g h'

theorem sentResults_of_exited (w : World) (l : List Goroutine)
    (h : ∀ g ∈ l, g.pc = ProbePc.exited) :
    sentResults w l = (l.map Goroutine.appID).map (probe w) ∧
    (l.map probeWeight).sum = 0 := by
  induction l with
  | nil => simp [sentResults]
  | cons x xs ih =>
    have hx := h x (List.mem_cons_self _ _)
    have := ih (fun g hg => h g (List.mem_cons_of_mem _ hg))
    simp only [sentResults] at this ⊢
    simp [sentOf, probeWeight, hx, this.1, this.2]

theorem inv_init (w : World) (steamGames : List SteamGame) :
    FanoutInv w (steamGames.map SteamGame.AppID) (initFanout steamGames) ∧
    stepsLeft (initFanout steamGames) = 6 * steamGames.length + 4 := by
  refine ⟨⟨rfl, by simp [initFanout], by simp [initFanout, toLaunch], rfl, ?_, by simp [initFanout],
    by simp [initFanout], by simp [initFanout], by simp [initFanout, sentResults],
    by simp [initFanout], rfl⟩, by simp [stepsLeft, initFanout, mainWeight, closerWeight]⟩
  simp only [initFanout, toLaunch, true_iff]
  cases steamGames <;> simp

theorem inv_stepMain (w : World) (ids : List Int) (s s' : Fanout) (h : FanoutInv w ids s)
    (hs : stepMain s = some s') :
    FanoutInv w ids s' ∧ stepsLeft s' + 1 = stepsLeft s := by
  obtain ⟨mainPc, probes, closer, wg, cap, buffer, closed, received, macGames, nonMacGames,
    panicked⟩ := s
  obtain ⟨h1, h2, h3, h4, h5, h6, h7, h8, h9, h10, h11⟩ := h
  simp only at h1 h2 h3 h4 h5 h6 h7 h8 h9 h10 h11
  cases mainPc with
  | launching rest =>
    cases rest with
    | nil =>
      simp only [stepMain, Option.some.injEq] at hs
      subst hs
      refine ⟨⟨?_, ?_, ?_, ?_, ?_, ?_, ?_, ?_, ?_, ?_, ?_⟩, ?_⟩
      all_goals first
        | assumption
        | (simp_all [toLaunch, addedAhead, stepsLeft, mainWeight, closerWeight, active, notDone,
          sentResults, sentOf, probeWeight, collect, collectStep]; done)
        | (simp_all [toLaunch, addedAhead, stepsLeft, mainWeight, closerWeight, active, notDone,
          sentResults, sentOf, probeWeight, collect, collectStep]; omega)
    | cons appID rest =>
      simp only [stepMain, Option.some.injEq] at hs
      subst hs
      refine ⟨⟨?_, ?_, ?_, ?_, ?_, ?_, ?_, ?_, ?_, ?_, ?_⟩, ?_⟩
      all_goals first
        | assumption
        | (simp_all [toLaunch, addedAhead, stepsLeft, mainWeight, closerWeight, active, notDone,
          sentResults, sentOf, probeWeight, collect, collectStep]; done)
        | (simp_all [toLaunch, addedAhead, stepsLeft, mainWeight, closerWeight, active, notDone,
          sentResults, sentOf, probeWeight, collect, collectStep]; omega)
  | spawning appID rest =>
    simp only [stepMain, Option.some.injEq] at hs
    subst hs
    refine ⟨⟨?_, ?_, ?_, ?_, ?_, ?_, ?_, ?_, ?_, ?_, ?_⟩, ?_⟩
    all_goals first
      | assumption
      | (simp_all [toLaunch, addedAhead, stepsLeft, mainWeight, closerWeight, active, notDone,
        sentResults, sentOf, probeWeight, collect, collectStep]; done)
      | (simp_all [toLaunch, addedAhead, stepsLeft, mainWeight, closerWeight, active, notDone,
        sentResults, sentOf, probeWeight, collect, collectStep]; omega)
      | (simp_all [toLaunch, addedAhead, stepsLeft, mainWeight, closerWeight, active, notDone,
        sentResults, sentOf, probeWeight, collect, collectStep]; tauto)
      | skip
    · intro g hg r hr
      rcases List.mem_append.1 hg with hg | hg
      · exact h8 g hg r hr
      · have hgc : g = { appID := appID, pc := ProbePc.calling } := by simpa using hg
        subst hgc
        simp at hr
  | collecting =>
    cases buffer with
    | nil =>
      cases closed with
      | false => simp [stepMain] at hs
      | true =>
        simp only [stepMain, if_true, Option.some.injEq] at hs
        subst hs
        refine ⟨⟨?_, ?_, ?_, ?_, ?_, ?_, ?_, ?_, ?_, ?_, ?_⟩, ?_⟩
        all_goals first
          | assumption
          | (simp_all [toLaunch, addedAhead, stepsLeft, mainWeight, closerWeight, active, notDone,
            sentResults, sentOf, probeWeight, collect, collectStep]; done)
          | (simp_all [toLaunch, addedAhead, stepsLeft, mainWeight, closerWeight, active, notDone,
            sentResults, sentOf, probeWeight, collect, collectStep]; omega)
    | cons result rest =>
      simp only [stepMain, Option.some.injEq] at hs
      subst hs
      refine ⟨⟨?_, ?_, ?_, ?_, ?_, ?_, ?_, ?_, ?_, ?_, ?_⟩, ?_⟩
      all_goals first
        | assumption
        | (simp_all [toLaunch, addedAhead, stepsLeft, mainWeight, closerWeight, active, notDone,
          sentResults, sentOf, probeWeight, collect, collectStep]; done)
        | (simp_all [toLaunch, addedAhead, stepsLeft, mainWeight, closerWeight, active, notDone,
          sentResults, sentOf, probeWeight, collect, collectStep]; omega)
        | skip
      · show ((collectStep (macGames, nonMacGames) result).1,
            (collectStep (macGames, nonMacGames) result).2) = collect (received ++ [result])
        rw [h11]
        simp [collect, List.foldl_append]
  | collected => simp [stepMain] at hs

theorem active_pos_of_mem (l : List Goroutine) (g : Goroutine) (hg : g ∈ l)
    (hn : notDone g = 1) : 1 ≤ active l := by
  induction l with
  | nil => simp at hg
  | cons x xs ih =>
    simp only [active, List.map_cons, List.sum_cons] at ih ⊢
    rcases List.mem_cons.1 hg with h | h
    · subst h
      omega
    · have := ih h
      omega

theorem inv_stepCloser (w : World) (ids : List Int) (s s' : Fanout) (h : FanoutInv w ids s)
    (hs : stepCloser s = some s') :
    FanoutInv w ids s' ∧ stepsLeft s' + 1 = stepsLeft s := by
  obtain ⟨mainPc, probes, closer, wg, cap, buffer, closed, received, macGames, nonMacGames,
    panicked⟩ := s
  obtain ⟨h1, h2, h3, h4, h5, h6, h7, h8, h9, h10, h11⟩ := h
  simp only at h1 h2 h3 h4 h5 h6 h7 h8 h9 h10 h11
  cases closer with
  | none => simp [stepCloser] at hs
  | some c =>
    cases c with
    | waiting =>
      by_cases hwg : wg = 0
      · simp only [stepCloser, hwg, if_true, Option.some.injEq] at hs
        subst hs
        refine ⟨⟨?_, ?_, ?_, ?_, ?_, ?_, ?_, ?_, ?_, ?_, ?_⟩, ?_⟩
        all_goals first
          | assumption
          | (simp_all [stepsLeft, closerWeight]; done)
          | (simp_all [stepsLeft, closerWeight]; omega)
      · simp [stepCloser, hwg] at hs
    | closing =>
      have hc : closed = false := by
        cases closed with
        | false => rfl
        | true => simp at h6
      subst hc
      simp only [stepCloser, Bool.false_eq_true, if_false, Option.some.injEq] at hs
      subst hs
      refine ⟨⟨?_, ?_, ?_, ?_, ?_, ?_, ?_, ?_, ?_, ?_, ?_⟩, ?_⟩
      all_goals first
        | assumption
        | (simp_all [stepsLeft, closerWeight]; done)
        | (simp_all [stepsLeft, closerWeight]; omega)
    | exited => simp [stepCloser] at hs

theorem inv_stepProbe (w : World) (ids : List Int) (s s' : Fanout) (i : Nat)
    (h : FanoutInv w ids s) (hs : stepProbe w s i = some s') :
    FanoutInv w ids s' ∧ stepsLeft s' + 1 = stepsLeft s := by
  obtain ⟨mainPc, probes, closer, wg, cap, buffer, closed, received, macGames, nonMacGames,
    panicked⟩ := s
  obtain ⟨h1, h2, h3, h4, h5, h6, h7, h8, h9, h10, h11⟩ := h
  simp only at h1 h2 h3 h4 h5 h6 h7 h8 h9 h10 h11
  cases hget : probes[i]? with
  | none => simp [stepProbe, hget] at hs
  | some g =>
    have hmem : g ∈ probes := List.getElem?_mem hget
    obtain ⟨appID, pc⟩ := g
    have hset : ∀ g' ∈ probes.set i { appID := appID, pc := ProbePc.finishing },
        ∀ r, g'.pc = ProbePc.sending r → r = probe w g'.appID := by
      intro g' hg' r hr
      rcases List.mem_or_eq_of_mem_set hg' with hg' | hg'
      · exact h8 g' hg' r hr
      · subst hg'
        simp at hr
    cases pc with
    | calling =>
      simp only [stepProbe, hget, Option.some.injEq] at hs
      subst hs
      have e1 := map_appID_set probes i _ { appID := appID, pc := ProbePc.sending (probe w appID) }
        hget rfl
      have e2 := sum_map_set notDone probes i _
        { appID := appID, pc := ProbePc.sending (probe w appID) } hget
      have e3 := sum_map_set probeWeight probes i _
        { appID := appID, pc := ProbePc.sending (probe w appID) } hget
      have e4 := sentResults_set_same w probes i _
        { appID := appID, pc := ProbePc.sending (probe w appID) } hget rfl
      simp only [notDone, probeWeight] at e2 e3
      refine ⟨⟨h1, h2, ?_, ?_, h5, h6, h7, ?_, ?_, h10, h11⟩, ?_⟩
      · simpa [e1] using h3
      · simp only [active] at h4 ⊢
        omega
      · intro g' hg' r hr
        rcases List.mem_or_eq_of_mem_set hg' with hg' | hg'
        · exact h8 g' hg' r hr
        · subst hg'
          simp only [ProbePc.sending.injEq] at hr
          exact hr.symm
      · simpa [e4] using h9
      · simp only [stepsLeft]
        omega
    | sending r =>
      have hr : r = probe w appID := h8 _ hmem r rfl
      have hopen : closed = false := by
        cases closed with
        | false => rfl
        | true =>
          exfalso
          have hwg : wg = 0 := h7 (Or.inr (h6.1 rfl))
          have hact := active_pos_of_mem probes _ hmem rfl
          omega
      subst hopen
      by_cases hroom : buffer.length < cap
      · simp only [stepProbe, hget, Bool.false_eq_true, if_false, hroom, if_true,
          Option.some.injEq] at hs
        subst hs
        have e1 := map_appID_set probes i _ { appID := appID, pc := ProbePc.finishing } hget rfl
        have e2 := sum_map_set notDone probes i _
          { appID := appID, pc := ProbePc.finishing } hget
        have e3 := sum_map_set probeWeight probes i _
          { appID := appID, pc := ProbePc.finishing } hget
        have e4 := sentResults_set_new w probes i _
          { appID := appID, pc := ProbePc.finishing } (probe w appID) hget rfl rfl
        simp only [notDone, probeWeight] at e2 e3
        refine ⟨⟨h1, h2, ?_, ?_, h5, h6, h7, hset, ?_, ?_, h11⟩, ?_⟩
        · simpa [e1] using h3
        · simp only [active] at h4 ⊢
          omega
        · show (received ++ (buffer ++ [r])).Perm _
          rw [← List.append_assoc, hr]
          exact (h9.append_right _).trans e4.symm
        · intro hc
          have := h10 hc
          simp at this
        · simp only [stepsLeft, List.length_append, List.length_singleton]
          omega
      · simp [stepProbe, hget, hroom] at hs
    | finishing =>
      have hact := active_pos_of_mem probes _ hmem rfl
      have hwg : wg ≠ 0 := by omega
      simp only [stepProbe, hget, hwg, if_false, Option.some.injEq] at hs
      subst hs
      have e1 := map_appID_set probes i _ { appID := appID, pc := ProbePc.exited } hget rfl
      have e2 := sum_map_set notDone probes i _ { appID := appID, pc := ProbePc.exited } hget
      have e3 := sum_map_set probeWeight probes i _ { appID := appID, pc := ProbePc.exited } hget
      have e4 := sentResults_set_same w probes i _ { appID := appID, pc := ProbePc.exited }
        hget rfl
      simp only [notDone, probeWeight] at e2 e3
      refine ⟨⟨h1, h2, ?_, ?_, h5, h6, ?_, ?_, ?_, h10, h11⟩, ?_⟩
      · simpa [e1] using h3
      · simp only [active] at h4 ⊢
        omega
      · intro hc
        have := h7 hc
        omega
      · intro g' hg' r hr
        rcases List.mem_or_eq_of_mem_set hg' with hg' | hg'
        · exact h8 g' hg' r hr
        · subst hg'
          simp at hr
      · simpa [e4] using h9
      · simp only [stepsLeft]
        omega
    | exited => simp [stepProbe, hget] at hs

theorem inv_step (w : World) (ids : List Int) (s s' : Fanout) (t : Thread)
    (h : FanoutInv w ids s) (hs : step w s t = some s') :
    FanoutInv w ids s' ∧ stepsLeft s' + 1 = stepsLeft s := by
  unfold step at hs
  rw [h.noPanic] at hs
  cases t with
  | main => exact inv_stepMain w ids s s' h (by simpa using hs)
  | probe i => exact inv_stepProbe w ids s s' i h (by simpa using hs)
  | closer => exact inv_stepCloser w ids s s' h (by simpa using hs)

theorem inv_runSched (w : World) (ids : List Int) (sched : List Thread) (s s' : Fanout)
    (h : FanoutInv w ids s) (hs : runSched w s sched = some s') :
    FanoutInv w ids s' ∧ stepsLeft s' + sched.length = stepsLeft s := by
  induction sched generalizing s with
  | nil =>
    simp only [runSched, Option.some.injEq] at hs
    subst hs
    exact ⟨h, rfl⟩
  | cons t rest ih =>
    cases hstep : step w s t with
    | none => simp [runSched, hstep] at hs
    | some s₁ =>
      simp only [runSched, hstep] at hs
      obtain ⟨hinv, hm⟩ := inv_step w ids s s₁ t h hstep
      obtain ⟨hinv', hm'⟩ := ih s₁ hinv hs
      refine ⟨hinv', ?_⟩
      simp only [List.length_cons]
      omega

theorem exists_active_of_pos (l : List Goroutine) (h : 0 < active l) :
    ∃ g ∈ l, g.pc ≠ ProbePc.exited := by
  induction l with
  | nil => simp [active] at h
  | cons x xs ih =>
    by_cases hx : x.pc = ProbePc.exited
    · have hxs : 0 < active xs := by
        simp only [active, List.map_cons, List.sum_cons, notDone, hx] at h ⊢
        omega
      obtain ⟨g, hg, hne⟩ := ih hxs
      exact ⟨g, List.mem_cons_of_mem _ hg, hne⟩
    · exact ⟨x, List.mem_cons_self _ _, hx⟩

theorem probes_length_le (w : World) (ids : List Int) (s : Fanout) (h : FanoutInv w ids s) :
    s.probes.length + (toLaunch s.mainPc).length = ids.length := by
  have := congrArg List.length h.ids_eq
  simpa using this

/-- Under the invariant a probe goroutine that stands at its send finds the
channel open and its buffer not full. -/
theorem send_enabled (w : World) (ids : List Int) (s : Fanout) (h : FanoutInv w ids s)
    (g : Goroutine) (r : gameResult) (hg : g ∈ s.probes) (hpc : g.pc = ProbePc.sending r) :
    s.closed = false ∧ s.buffer.length < s.cap := by
  have hnd : notDone g = 1 := by simp [notDone, hpc]
  have hact := active_pos_of_mem s.probes g hg hnd
  constructor
  · cases hc : s.closed with
    | false => rfl
    | true =>
      exfalso
      have hwg : s.wg = 0 := h.closing_wg (Or.inr (h.closed_iff.1 hc))
      have := h.wg_eq
      omega
  · have hlt := sentResults_length_lt w s.probes g hg (by simp [sentOf, hpc])
    have hlen := h.perm.length_eq
    have hle := probes_length_le w ids s h
    have hcap := h.cap_eq
    simp only [List.length_append] at hlen
    omega

/-- Under the invariant, once the channel is closed every game has had its
goroutine started and every probe goroutine has ended. -/
theorem closed_all_exited (w : World) (ids : List Int) (s : Fanout) (h : FanoutInv w ids s)
    (hc : s.closed = true) :
    s.probes.map Goroutine.appID = ids ∧ ∀ g ∈ s.probes, g.pc = ProbePc.exited := by
  have hcl : s.closer = some CloserPc.exited := h.closed_iff.1 hc
  have hwg : s.wg = 0 := h.closing_wg (Or.inr hcl)
  have hnone : ¬ (toLaunch s.mainPc ≠ [] ∨ s.mainPc = MainPc.launching []) := by
    intro hx
    have := h.closer_none.2 hx
    rw [hcl] at this
    cases this
  have htl : toLaunch s.mainPc = [] := by
    by_contra hne
    exact hnone (Or.inl hne)
  have hact : active s.probes = 0 := by
    have := h.wg_eq
    omega
  refine ⟨?_, exited_of_active_zero s.probes hact⟩
  have := h.ids_eq
  rw [htl, List.append_nil] at this
  exact this

theorem progress (w : World) (ids : List Int) (s : Fanout) (h : FanoutInv w ids s)
    (hne : s.mainPc ≠ MainPc.collected) : ∃ t, (step w s t).isSome = true := by
  have hp := h.noPanic
  cases hm : s.mainPc with
  | launching rest =>
    refine ⟨Thread.main, ?_⟩
    cases rest <;> simp [step, hp, stepMain, hm]
  | spawning appID rest =>
    exact ⟨Thread.main, by simp [step, hp, stepMain, hm]⟩
  | collected => exact absurd hm hne
  | collecting =>
    cases hb : s.buffer with
    | cons r rest => exact ⟨Thread.main, by simp [step, hp, stepMain, hm, hb]⟩
    | nil =>
      cases hc : s.closed with
      | true => exact ⟨Thread.main, by simp [step, hp, stepMain, hm, hb, hc]⟩
      | false =>
        cases hcl : s.closer with
        | none =>
          exfalso
          have := h.closer_none.1 hcl
          simp [hm, toLaunch] at this
        | some c =>
          cases c with
          | exited =>
            have := h.closed_iff.2 hcl
            rw [hc] at this
            cases this
          | closing =>
            exact ⟨Thread.closer, by simp [step, hp, stepCloser, hcl, hc]⟩
          | waiting =>
            by_cases hwg : s.wg = 0
            · exact ⟨Thread.closer, by simp [step, hp, stepCloser, hcl, hwg]⟩
            · have hact : 0 < active s.probes := by
                have := h.wg_eq
                simp only [hm, addedAhead] at this
                omega
              obtain ⟨g, hg, hgne⟩ := exists_active_of_pos s.probes hact
              obtain ⟨i, hi⟩ := List.mem_iff_getElem?.1 hg
              refine ⟨Thread.probe i, ?_⟩
              obtain ⟨appID, pc⟩ := g
              cases pc with
              | calling => simp [step, hp, stepProbe, hi]
              | sending r =>
                have hsend := send_enabled w ids s h _ r hg rfl
                simp [step, hp, stepProbe, hi, hsend.1, hsend.2]
              | finishing => simp [step, hp, stepProbe, hi, hwg]
              | exited => exact absurd rfl hgne

theorem final_state (w : World) (ids : List Int) (s : Fanout) (h : FanoutInv w ids s)
    (hm : s.mainPc = MainPc.collected) :
    s.received.Perm (ids.map (probe w)) ∧ s.buffer = [] ∧ stepsLeft s = 0 ∧
    ∀ t, step w s t = none := by
  obtain ⟨hc, hb⟩ := h.collected_ok hm
  obtain ⟨hids, hex⟩ := closed_all_exited w ids s h hc
  obtain ⟨hsent, hweight⟩ := sentResults_of_exited w s.probes hex
  have hcl : s.closer = some CloserPc.exited := h.closed_iff.1 hc
  refine ⟨?_, hb, ?_, ?_⟩
  · have := h.perm
    rw [hb, List.append_nil, hsent, hids] at this
    exact this
  · simp [stepsLeft, hm, hcl, hweight, hb, mainWeight, closerWeight]
  · intro t
    cases t with
    | main => simp [step, h.noPanic, stepMain, hm]
    | closer => simp [step, h.noPanic, stepCloser, hcl]
    | probe i =>
      cases hi : s.probes[i]? with
      | none => simp [step, h.noPanic, stepProbe, hi]
      | some g =>
        have := hex g (List.getElem?_mem hi)
        simp [step, h.noPanic, stepProbe, hi, this]

theorem collected_of_stepsLeft_zero (s : Fanout) (h : stepsLeft s = 0) :
    s.mainPc = MainPc.collected := by
  cases hm : s.mainPc with
  | collected => rfl
  | launching rest => simp [stepsLeft, hm, mainWeight] at h
  | spawning appID rest => simp [stepsLeft, hm, mainWeight] at h
  | collecting => simp [stepsLeft, hm, mainWeight] at h

theorem exists_completion (w : World) (ids : List Int) (n : Nat) :
    ∀ s : Fanout, FanoutInv w ids s → stepsLeft s = n →
      ∃ rest s', runSched w s rest = some s' ∧ s'.mainPc = MainPc.collected := by
  induction n with
  | zero =>
    intro s _ hn
    exact ⟨[], s, rfl, collected_of_stepsLeft_zero s hn⟩
  | succ n ih =>
    intro s h hn
    by_cases hm : s.mainPc = MainPc.collected
    · exact ⟨[], s, rfl, hm⟩
    · obtain ⟨t, ht⟩ := progress w ids s h hm
      obtain ⟨s₁, hs₁⟩ := Option.isSome_iff_exists.1 ht
      obtain ⟨hinv, hsteps⟩ := inv_step w ids s s₁ t h hs₁
      obtain ⟨rest, s', hrun, hfin⟩ := ih s₁ hinv (by omega)
      exact ⟨t :: rest, s', by simp [runSched, hs₁, hrun], hfin⟩

theorem sentResults_sublist (w : World) (l : List Goroutine) :
    (sentResults w l).Sublist ((l.map Goroutine.appID).map (probe w)) := by
  induction l with
  | nil => simp [sentResults]
  | cons x xs ih =>
    obtain ⟨appID, pc⟩ := x
    simp only [sentResults] at ih
    cases pc with
    | calling => simpa [sentResults, sentOf] using ih.cons _
    | sending r => simpa [sentResults, sentOf] using ih.cons _
    | finishing => simpa [sentResults, sentOf] using ih
    | exited => simpa [sentResults, sentOf] using ih

/-! ## The claims -/

/-- C1: for every sequence of probe results in arrival order, the entries
written to `mac_games.txt` are exactly the names of the results with
`supportsMac = true` and a non-empty name, in arrival order, and the entries
written to `non_mac_games.txt` those with `supportsMac = false` and a non-empty
name; the `WriteString` arguments are these names, each followed by a newline;
every result with a non-empty name gives exactly one entry in all, in the file
its flag selects. A run of `main` that reaches its end has written exactly
these entries for the results in the order they arrived. -/
theorem C1_written_entries_are_the_partitions (results : List gameResult) :
    writtenEntries (collect results).1 = partitionOf true results ∧
    writtenEntries (collect results).2 = partitionOf false results ∧
    writeGames (collect results).1 = (partitionOf true results).map (fun g => g ++ "\n") ∧
    writeGames (collect results).2 = (partitionOf false results).map (fun g => g ++ "\n") ∧
    (∀ r ∈ results, r.name ≠ "" →
      (r.name ∈ writtenEntries (collect results).1 ∨ r.name ∈ writtenEntries (collect results).2) ∧
      (r.supportsMac = true → r.name ∈ writtenEntries (collect results).1) ∧
      (r.supportsMac = false → r.name ∈ writtenEntries (collect results).2)) ∧
    (writtenEntries (collect results).1).length + (writtenEntries (collect results).2).length =
      (results.filter (fun r => r.name != "")).length ∧
    (∀ (w : World) (sched : List Nat), (main w sched).fatal = none →
      (main w sched).files =
        [("mac_games.txt",
            (partitionOf true (arrivalOrder sched ((main w sched).launched.map (probe w)))).map
              (fun g => g ++ "\n")),
         ("non_mac_games.txt",
            (partitionOf false (arrivalOrder sched ((main w sched).launched.map (probe w)))).map
              (fun g => g ++ "\n"))]) := by
  refine ⟨writtenEntries_collect_fst results, writtenEntries_collect_snd results, ?_, ?_, ?_, ?_,
    ?_⟩
  · rw [writeGames_eq_map, writtenEntries_collect_fst]
  · rw [writeGames_eq_map, writtenEntries_collect_snd]
  · intro r hr hn
    rw [writtenEntries_collect_fst, writtenEntries_collect_snd]
    have h1 : r.supportsMac = true → r.name ∈ partitionOf true results := by
      intro hs
      exact List.mem_map.2 ⟨r, List.mem_filter.2 ⟨hr, by simp [hs, hn]⟩, rfl⟩
    have h2 : r.supportsMac = false → r.name ∈ partitionOf false results := by
      intro hs
      exact List.mem_map.2 ⟨r, List.mem_filter.2 ⟨hr, by simp [hs, hn]⟩, rfl⟩
    refine ⟨?_, h1, h2⟩
    cases hs : r.supportsMac
    · exact Or.inr (h2 hs)
    · exact Or.inl (h1 hs)
  · rw [writtenEntries_collect_fst, writtenEntries_collect_snd, partitionOf_length_add]
  · intro w sched hfin
    rw [main_files w sched hfin, writeGames_eq_map, writeGames_eq_map,
      writtenEntries_collect_fst, writtenEntries_collect_snd]

/-- C3, as stated, fails: the collect loop appends the name of every result it
receives, the empty one included. After collecting the single result
`("", false)` the list `nonMacGames` is `[""]`. -/
theorem C3_counterexample_collect_keeps_empty_name :
    ¬ (∀ results : List gameResult,
        "" ∉ (collect results).1 ∧ "" ∉ (collect results).2) := by
  intro h
  exact (h [{ name := "", supportsMac := false }]).2 (by decide)

/-- C3, amended: the collect loop appends every received name, empty or not, to
the list its flag selects (so the two lists hold each result exactly once); it
is the two write loops that drop the results with the empty name: no entry
written to either file is the empty string, and every non-empty collected name
is written. -/
theorem C3_empty_name_dropped_by_write_loops (results : List gameResult) :
    (collect results).1 = (results.filter (fun r => r.supportsMac)).map gameResult.name ∧
    (collect results).2 = (results.filter (fun r => !r.supportsMac)).map gameResult.name ∧
    "" ∉ writtenEntries (collect results).1 ∧
    "" ∉ writtenEntries (collect results).2 ∧
    "\n" ∉ writeGames (collect results).1 ∧
    "\n" ∉ writeGames (collect results).2 ∧
    (∀ g, g ∈ writtenEntries (collect results).1 ↔ g ∈ (collect results).1 ∧ g ≠ "") ∧
    (∀ g, g ∈ writtenEntries (collect results).2 ↔ g ∈ (collect results).2 ∧ g ≠ "") := by
  have key : ∀ games : List String, "" ∉ writtenEntries games ∧ "\n" ∉ writeGames games ∧
      (∀ g, g ∈ writtenEntries games ↔ g ∈ games ∧ g ≠ "") := by
    intro games
    refine ⟨?_, ?_, ?_⟩
    · simp [writtenEntries_eq_filter]
    · rw [writeGames_eq_map, writtenEntries_eq_filter]
      intro hmem
      obtain ⟨g, hg, hgn⟩ := List.mem_map.1 hmem
      have hne : g ≠ "" := by simpa using (List.mem_filter.1 hg).2
      apply hne
      have hdata : (g ++ "\n").data = "\n".data := congrArg String.data hgn
      rw [String.data_append] at hdata
      have hlen := congrArg List.length hdata
      simp at hlen
      exact String.ext (List.eq_nil_of_length_eq_zero (by simpa using hlen))
    · intro g
      simp [writtenEntries_eq_filter]
  exact ⟨collect_fst results, collect_snd results, (key _).1, (key _).1, (key _).2.1,
    (key _).2.1, (key _).2.2, (key _).2.2⟩

/-- C8: for two arrival orders of the same collection of probe results (two
sequences that are permutations of each other) the lists `macGames` built by
the collector are permutations of each other, and so are the lists
`nonMacGames`, the entries written to each file and the `WriteString`
arguments. -/
theorem C8_partitions_of_permuted_arrivals (r₁ r₂ : List gameResult) (h : r₁.Perm r₂) :
    (collect r₁).1.Perm (collect r₂).1 ∧
    (collect r₁).2.Perm (collect r₂).2 ∧
    (writtenEntries (collect r₁).1).Perm (writtenEntries (collect r₂).1) ∧
    (writtenEntries (collect r₁).2).Perm (writtenEntries (collect r₂).2) ∧
    (writeGames (collect r₁).1).Perm (writeGames (collect r₂).1) ∧
    (writeGames (collect r₁).2).Perm (writeGames (collect r₂).2) := by
  have h1 : (collect r₁).1.Perm (collect r₂).1 := by
    rw [collect_fst, collect_fst]
    exact (h.filter _).map _
  have h2 : (collect r₁).2.Perm (collect r₂).2 := by
    rw [collect_snd, collect_snd]
    exact (h.filter _).map _
  have h3 : ∀ a b : List String, a.Perm b → (writtenEntries a).Perm (writtenEntries b) := by
    intro a b hab
    rw [writtenEntries_eq_filter, writtenEntries_eq_filter]
    exact hab.filter _
  have h4 : ∀ a b : List String, a.Perm b → (writeGames a).Perm (writeGames b) := by
    intro a b hab
    rw [writeGames_eq_map, writeGames_eq_map]
    exact (h3 a b hab).map _
  exact ⟨h1, h2, h3 _ _ h1, h3 _ _ h2, h4 _ _ h1, h4 _ _ h2⟩

/-- C8 at two arrival orders of three results, one of them with an empty name. -/
theorem C8_partitions_of_permuted_arrivals_witness :
    ([⟨"A", true⟩, ⟨"B", false⟩, ⟨"", false⟩] : List gameResult).Perm
        [⟨"", false⟩, ⟨"B", false⟩, ⟨"A", true⟩] ∧
    (collect [⟨"A", true⟩, ⟨"B", false⟩, ⟨"", false⟩]).2.Perm
        (collect [⟨"", false⟩, ⟨"B", false⟩, ⟨"A", true⟩]).2 ∧
    collect [⟨"A", true⟩, ⟨"B", false⟩, ⟨"", false⟩] = (["A"], ["B", ""]) ∧
    collect [⟨"", false⟩, ⟨"B", false⟩, ⟨"A", true⟩] = (["A"], ["", "B"]) :=
  ⟨by decide,
   (C8_partitions_of_permuted_arrivals [⟨"A", true⟩, ⟨"B", false⟩, ⟨"", false⟩]
      [⟨"", false⟩, ⟨"B", false⟩, ⟨"A", true⟩] (by decide)).2.1,
   by decide, by decide⟩

/-- C9, as stated, fails: a display name may itself hold a newline, and the
writer does not escape it. For the single collected result `("A\n\nB", true)`
the content of `mac_games.txt` is `"A\n\nB\n"`; split on the newline it gives
the three lines `"A"`, `""`, `"B"`: not the list of written names, and one line
is empty. -/
theorem C9_counterexample_name_with_newline :
    ¬ (∀ results : List gameResult,
        splitLines (fileContent (writeGames (collect results).1)) =
          writtenEntries (collect results).1 ∧
        "" ∉ splitLines (fileContent (writeGames (collect results).1))) := by
  intro h
  exact (h [{ name := "A\n\nB", supportsMac := true }]).2 (by decide)

/-- C9, amended: when no collected name holds a newline character, the content
written to each of the two files, split on the newline with the terminator of
the last line ignored, is exactly the list of the non-empty names written to
that file; no line is empty and every line is the name of a collected result. -/
theorem C9_lines_of_written_content (results : List gameResult)
    (h : ∀ r ∈ results, '\n' ∉ r.name.toList) :
    splitLines (fileContent (writeGames (collect results).1)) = partitionOf true results ∧
    splitLines (fileContent (writeGames (collect results).2)) = partitionOf false results ∧
    "" ∉ splitLines (fileContent (writeGames (collect results).1)) ∧
    "" ∉ splitLines (fileContent (writeGames (collect results).2)) ∧
    (∀ line ∈ splitLines (fileContent (writeGames (collect results).1)),
      ∃ r ∈ results, r.name = line ∧ r.supportsMac = true) ∧
    (∀ line ∈ splitLines (fileContent (writeGames (collect results).2)),
      ∃ r ∈ results, r.name = line ∧ r.supportsMac = false) := by
  have h1 : ∀ g ∈ (collect results).1, '\n' ∉ g.toList := by
    intro g hg
    rw [collect_fst] at hg
    obtain ⟨r, hr, rfl⟩ := List.mem_map.1 hg
    exact h r (List.mem_filter.1 hr).1
  have h2 : ∀ g ∈ (collect results).2, '\n' ∉ g.toList := by
    intro g hg
    rw [collect_snd] at hg
    obtain ⟨r, hr, rfl⟩ := List.mem_map.1 hg
    exact h r (List.mem_filter.1 hr).1
  rw [splitLines_fileContent_writeGames _ h1, splitLines_fileContent_writeGames _ h2,
    writtenEntries_collect_fst, writtenEntries_collect_snd]
  refine ⟨rfl, rfl, ?_, ?_, ?_, ?_⟩
  · simp [partitionOf]
  · simp [partitionOf]
  · intro line hl
    obtain ⟨r, hr, rfl⟩ := List.mem_map.1 hl
    have hmem := List.mem_filter.1 hr
    have hflag := hmem.2
    simp only [Bool.and_eq_true, beq_iff_eq] at hflag
    exact ⟨r, hmem.1, rfl, hflag.1⟩
  · intro line hl
    obtain ⟨r, hr, rfl⟩ := List.mem_map.1 hl
    have hmem := List.mem_filter.1 hr
    have hflag := hmem.2
    simp only [Bool.and_eq_true, beq_iff_eq] at hflag
    exact ⟨r, hmem.1, rfl, hflag.1⟩

/-- C9 at three collected results, one with an empty name. -/
theorem C9_lines_of_written_content_witness :
    (∀ r ∈ ([⟨"A", true⟩, ⟨"", true⟩, ⟨"B C", true⟩] : List gameResult),
      '\n' ∉ r.name.toList) ∧
    fileContent (writeGames (collect [⟨"A", true⟩, ⟨"", true⟩, ⟨"B C", true⟩]).1) =
      "A\nB C\n" ∧
    splitLines (fileContent (writeGames (collect [⟨"A", true⟩, ⟨"", true⟩, ⟨"B C", true⟩]).1)) =
      partitionOf true [⟨"A", true⟩, ⟨"", true⟩, ⟨"B C", true⟩] ∧
    partitionOf true [⟨"A", true⟩, ⟨"", true⟩, ⟨"B C", true⟩] = ["A", "B C"] :=
  ⟨by decide, by decide,
   (C9_lines_of_written_content [⟨"A", true⟩, ⟨"", true⟩, ⟨"B C", true⟩] (by decide)).1,
   by decide⟩

/-- C2: `checkMacOSSupport` returns `(false, "")`, prints nothing and has no
error to surface (its result type holds none) whenever `http.Get` fails, or the
body cannot be read, or the body does not unmarshal into the store map, or the
map has no entry under the decimal form of `appID` (whatever it holds under
other keys), or that entry has `success = false`. All five failures give one
and the same result, so an unsuccessful envelope is not told apart from a
transport failure. -/
theorem C2_probe_failure_is_silent (w : World) (appID : Int)
    (h : w.httpGet (storeURL appID) = HttpResult.getErr ∨
         w.httpGet (storeURL appID) = HttpResult.readErr ∨
         ∃ body, w.httpGet (storeURL appID) = HttpResult.body body ∧
           (w.unmarshalStore body = none ∨
            ∃ response, w.unmarshalStore body = some response ∧
              (response (fmtD appID) = none ∨
               ∃ gameResponse, response (fmtD appID) = some gameResponse ∧
                 gameResponse.Success = false))) :
    checkMacOSSupport w appID = { supportsMac := false, name := "", stdout := [] } ∧
    probe w appID = { name := "", supportsMac := false } := by
  have key : checkMacOSSupport w appID = { supportsMac := false, name := "", stdout := [] } := by
    rcases h with h | h | ⟨body, hb, h⟩
    · simp [checkMacOSSupport, h]
    · simp [checkMacOSSupport, h]
    · rcases h with h | ⟨response, hr, h⟩
      · simp [checkMacOSSupport, hb, h]
      · rcases h with h | ⟨gameResponse, hg, hs⟩
        · simp [checkMacOSSupport, hb, hr, h]
        · simp [checkMacOSSupport, hb, hr, hg, hs]
  exact ⟨key, by simp [probe, key]⟩

/-- C2 in `exampleWorld` at app 40, whose response has an entry under "41" but
none under "40". -/
theorem C2_probe_failure_is_silent_witness :
    (exampleWorld.httpGet (storeURL 40) = HttpResult.body "r40" ∧
      ∃ response, exampleWorld.unmarshalStore "r40" = some response ∧
        response (fmtD 40) = none ∧ (response "41").isSome = true) ∧
    checkMacOSSupport exampleWorld 40 = { supportsMac := false, name := "", stdout := [] } :=
  ⟨⟨by decide, _, rfl, by decide, by decide⟩,
   (C2_probe_failure_is_silent exampleWorld 40
      (Or.inr (Or.inr ⟨"r40", by decide, Or.inr ⟨_, rfl, Or.inl (by decide)⟩⟩))).1⟩

/-- C6: whenever the owned-games fetch fails (`http.Get` returns an error, the
body cannot be read, or the body does not unmarshal into the owned-games
envelope), the run ends in a `log.Fatal`: no probe goroutine is launched, no
store request is made and neither output file is created. When the run reaches
the fetch (the configuration is complete), the fatal error is the one of the
failing step of `getSteamGames`. -/
theorem C6_fetch_failure_is_fatal (w : World) (sched : List Nat)
    (h : w.httpGet (ownedGamesURL w (w.getenv "API_KEY") (w.getenv "STEAM_ID_64")) =
           HttpResult.getErr ∨
         w.httpGet (ownedGamesURL w (w.getenv "API_KEY") (w.getenv "STEAM_ID_64")) =
           HttpResult.readErr ∨
         ∃ body,
           w.httpGet (ownedGamesURL w (w.getenv "API_KEY") (w.getenv "STEAM_ID_64")) =
             HttpResult.body body ∧
           w.unmarshalGames body = none) :
    (main w sched).fatal ≠ none ∧
    (main w sched).launched = [] ∧
    (main w sched).files = [] ∧
    (∀ u ∈ (main w sched).requests,
      u = ownedGamesURL w (w.getenv "API_KEY") (w.getenv "STEAM_ID_64")) ∧
    (w.dotenvOk = true → w.getenv "API_KEY" ≠ "" → w.getenv "STEAM_ID_64" ≠ "" →
      (main w sched).fatal = some Fatal.fetchingGames ∨
      (main w sched).fatal = some Fatal.readingGames ∨
      (main w sched).fatal = some Fatal.parsingGames) := by
  have hget : ∃ f, getSteamGames w (w.getenv "API_KEY") (w.getenv "STEAM_ID_64") =
        Except.error f ∧
      (f = Fatal.fetchingGames ∨ f = Fatal.readingGames ∨ f = Fatal.parsingGames) := by
    rcases h with h | h | ⟨body, hb, hu⟩
    · exact ⟨_, by simp [getSteamGames, h], Or.inl rfl⟩
    · exact ⟨_, by simp [getSteamGames, h], Or.inr (Or.inl rfl)⟩
    · exact ⟨_, by simp [getSteamGames, hb, hu], Or.inr (Or.inr rfl)⟩
  obtain ⟨f, hf, hcases⟩ := hget
  cases hd : w.dotenvOk
  · simp [main, hd]
  · by_cases hk : w.getenv "API_KEY" = ""
    · simp [main, hd, hk]
    · by_cases hs : w.getenv "STEAM_ID_64" = ""
      · simp [main, hd, hs]
      · simp only [main, hd, hk, hs, hf]
        simpa using fun _ _ => hcases

/-- C6 in a world whose every request fails in transport. -/
theorem C6_fetch_failure_is_fatal_witness :
    ({ exampleWorld with httpGet := fun _ => HttpResult.getErr } : World).httpGet
        (ownedGamesURL { exampleWorld with httpGet := fun _ => HttpResult.getErr }
          "key" "76561") = HttpResult.getErr ∧
    (main { exampleWorld with httpGet := fun _ => HttpResult.getErr } [1, 0]).launched = [] ∧
    main { exampleWorld with httpGet := fun _ => HttpResult.getErr } [1, 0] =
      { fatal := some Fatal.fetchingGames,
        requests := ["http://api.steampowered.com/IPlayerService/GetOwnedGames/v0001/?" ++
          "format=json&include_appinfo=True&key=key&steamid=76561"],
        launched := [], files := [] } :=
  ⟨rfl,
   (C6_fetch_failure_is_fatal { exampleWorld with httpGet := fun _ => HttpResult.getErr }
      [1, 0] (Or.inl rfl)).2.1,
   by decide⟩

/-- C7: if, once the `.env` file is loaded, `API_KEY` or `STEAM_ID_64` is the
empty string, `main` ends in the `log.Fatal` of line 41 before any network
activity: no request is made (`getSteamGames` is not called), no probe is
launched and no file is created. Conversely, when both are non-empty the run
does not end in that fatal error and does call `getSteamGames`: its request is
the first one made. -/
theorem C7_missing_configuration_is_fatal (w : World) (sched : List Nat)
    (hload : w.dotenvOk = true) :
    ((w.getenv "API_KEY" = "" ∨ w.getenv "STEAM_ID_64" = "") →
      main w sched =
        { fatal := some Fatal.missingConfig, requests := [], launched := [], files := [] }) ∧
    (w.getenv "API_KEY" ≠ "" → w.getenv "STEAM_ID_64" ≠ "" →
      (main w sched).fatal ≠ some Fatal.missingConfig ∧
      (main w sched).requests.head? =
        some (ownedGamesURL w (w.getenv "API_KEY") (w.getenv "STEAM_ID_64"))) := by
  constructor
  · intro h
    simp [main, hload, h]
  · intro hk hs
    simp only [main, hload, hk, hs]
    cases hg : getSteamGames w (w.getenv "API_KEY") (w.getenv "STEAM_ID_64") with
    | error f =>
      have hf : f ≠ Fatal.missingConfig := by
        intro hf
        subst hf
        unfold getSteamGames at hg
        split at hg
        · cases hg
        · cases hg
        · split at hg <;> cases hg
      simp [hf]
    | ok r =>
      obtain ⟨games, err⟩ := r
      cases err with
      | some e => simp
      | none =>
        simp only [Bool.not_eq_true, Bool.false_eq_true, or_self, if_false]
        cases w.createOk "mac_games.txt" <;> cases w.createOk "non_mac_games.txt" <;> simp

/-- C7 in `exampleWorld` with the `API_KEY` variable unset (so `os.Getenv`
gives the empty string), and in `exampleWorld` itself, where both are set. -/
theorem C7_missing_configuration_is_fatal_witness :
    ({ exampleWorld with
        getenv := fun k => if k = "STEAM_ID_64" then "76561" else "" } : World).getenv
      "API_KEY" = "" ∧
    main { exampleWorld with getenv := fun k => if k = "STEAM_ID_64" then "76561" else "" }
        [0] =
      { fatal := some Fatal.missingConfig, requests := [], launched := [], files := [] } ∧
    (main exampleWorld [0]).fatal ≠ some Fatal.missingConfig :=
  ⟨rfl,
   (C7_missing_configuration_is_fatal
      { exampleWorld with getenv := fun k => if k = "STEAM_ID_64" then "76561" else "" }
      [0] rfl).1 (Or.inl rfl),
   ((C7_missing_configuration_is_fatal exampleWorld [0] rfl).2 (by decide) (by decide)).1⟩

/-- C10: whenever `getSteamGames` returns to its caller the error it returns is
`nil`; each failure inside it (`http.Get`, reading the body, unmarshalling) is a
`log.Fatal`, not a return; so no run of `main` ends in the `log.Fatal` of line
46 ("Error getting Steam games"). A body that unmarshals into an envelope with
no games gives a successful return with the empty list. -/
theorem C10_getSteamGames_never_returns_an_error (w : World) (apiKey steamID : String) :
    (∀ games err, getSteamGames w apiKey steamID = Except.ok (games, err) → err = none) ∧
    (w.httpGet (ownedGamesURL w apiKey steamID) = HttpResult.getErr →
      getSteamGames w apiKey steamID = Except.error Fatal.fetchingGames) ∧
    (w.httpGet (ownedGamesURL w apiKey steamID) = HttpResult.readErr →
      getSteamGames w apiKey steamID = Except.error Fatal.readingGames) ∧
    (∀ body, w.httpGet (ownedGamesURL w apiKey steamID) = HttpResult.body body →
      w.unmarshalGames body = none →
      getSteamGames w apiKey steamID = Except.error Fatal.parsingGames) ∧
    (∀ sched, (main w sched).fatal ≠ some Fatal.gettingGames) ∧
    (∀ body envelope, w.httpGet (ownedGamesURL w apiKey steamID) = HttpResult.body body →
      w.unmarshalGames body = some envelope → envelope.Response.Games = [] →
      getSteamGames w apiKey steamID = Except.ok ([], none)) := by
  have hnil : ∀ k s games err, getSteamGames w k s = Except.ok (games, err) → err = none := by
    intro k s games err h
    unfold getSteamGames at h
    split at h
    · cases h
    · cases h
    · split at h
      · cases h
      · cases h
        rfl
  have herr : ∀ k s f, getSteamGames w k s = Except.error f →
      f = Fatal.fetchingGames ∨ f = Fatal.readingGames ∨ f = Fatal.parsingGames := by
    intro k s f h
    unfold getSteamGames at h
    split at h
    · cases h; exact Or.inl rfl
    · cases h; exact Or.inr (Or.inl rfl)
    · split at h
      · cases h; exact Or.inr (Or.inr rfl)
      · cases h
  refine ⟨hnil apiKey steamID, ?_, ?_, ?_, ?_, ?_⟩
  · intro h
    simp [getSteamGames, h]
  · intro h
    simp [getSteamGames, h]
  · intro body hb hu
    simp [getSteamGames, hb, hu]
  · intro sched
    unfold main
    cases hd : w.dotenvOk
    · simp
    · by_cases hcfg : w.getenv "API_KEY" = "" ∨ w.getenv "STEAM_ID_64" = ""
      · simp [hcfg]
      · simp only [Bool.not_true, Bool.false_eq_true, if_false, hcfg]
        cases hg : getSteamGames w (w.getenv "API_KEY") (w.getenv "STEAM_ID_64") with
        | error f =>
          rcases herr _ _ f hg with hf | hf | hf <;> simp [hf]
        | ok r =>
          obtain ⟨games, err⟩ := r
          have := hnil _ _ games err hg
          subst this
          simp only
          cases w.createOk "mac_games.txt" <;> cases w.createOk "non_mac_games.txt" <;> simp
  · intro body envelope hb hu hg
    simp [getSteamGames, hb, hu, hg]


/-- C10 in a world where the owned-games body unmarshals into an envelope with
no games: `getSteamGames` returns the empty list and a `nil` error, and `main`
runs to its end with two empty files. -/
theorem C10_getSteamGames_never_returns_an_error_witness :
    getSteamGames { exampleWorld with unmarshalGames := fun _ => some ⟨⟨[], 0⟩⟩ }
        "key" "76561" = Except.ok ([], none) ∧
    main { exampleWorld with unmarshalGames := fun _ => some ⟨⟨[], 0⟩⟩ } [] =
      { fatal := none,
        requests := ["http://api.steampowered.com/IPlayerService/GetOwnedGames/v0001/?" ++
          "format=json&include_appinfo=True&key=key&steamid=76561"],
        launched := [],
        files := [("mac_games.txt", []), ("non_mac_games.txt", [])] } :=
  ⟨(C10_getSteamGames_never_returns_an_error
      { exampleWorld with unmarshalGames := fun _ => some ⟨⟨[], 0⟩⟩ } "key" "76561").2.2.2.2.2
      "owned" ⟨⟨[], 0⟩⟩ (by decide) rfl rfl,
   by decide⟩

/-- C5: the owned games are 10, 20 and 30; the store answers for 10 with a
successful envelope under "10" (name "A", mac), for 20 with a successful
envelope under "20" (name "B", no mac), and the request for 30 fails. Then for
every arrival order of the three probe results the entries written to
`mac_games.txt` are exactly `["A"]`, those written to `non_mac_games.txt`
exactly `["B"]`, and nothing is written for 30; and every run of `main` on
that list that gets to create its two files leaves exactly these writes. -/
theorem C5_scenario_10_20_30 (w : World) (body10 body20 : String) (resp10 resp20 : StoreMap)
    (h10 : w.httpGet (storeURL 10) = HttpResult.body body10)
    (hu10 : w.unmarshalStore body10 = some resp10)
    (hr10 : resp10 "10" = some ⟨true, ⟨"A", ⟨true⟩⟩⟩)
    (h20 : w.httpGet (storeURL 20) = HttpResult.body body20)
    (hu20 : w.unmarshalStore body20 = some resp20)
    (hr20 : resp20 "20" = some ⟨true, ⟨"B", ⟨false⟩⟩⟩)
    (h30 : w.httpGet (storeURL 30) = HttpResult.getErr) :
    (∀ arrived : List gameResult, arrived.Perm ([10, 20, 30].map (probe w)) →
      writtenEntries (collect arrived).1 = ["A"] ∧
      writtenEntries (collect arrived).2 = ["B"] ∧
      writeGames (collect arrived).1 = ["A\n"] ∧
      writeGames (collect arrived).2 = ["B\n"]) ∧
    (∀ sched : List Nat, w.dotenvOk = true →
      w.getenv "API_KEY" ≠ "" → w.getenv "STEAM_ID_64" ≠ "" →
      getSteamGames w (w.getenv "API_KEY") (w.getenv "STEAM_ID_64") =
        Except.ok ([⟨10⟩, ⟨20⟩, ⟨30⟩], none) →
      w.createOk "mac_games.txt" = true → w.createOk "non_mac_games.txt" = true →
      (main w sched).fatal = none ∧
      (main w sched).launched = [10, 20, 30] ∧
      (main w sched).files =
        [("mac_games.txt", ["A\n"]), ("non_mac_games.txt", ["B\n"])]) := by
  have hf10 : fmtD 10 = "10" := by decide
  have hf20 : fmtD 20 = "20" := by decide
  have p10 : probe w 10 = ⟨"A", true⟩ := by
    simp [probe, checkMacOSSupport, h10, hu10, hf10, hr10]
  have p20 : probe w 20 = ⟨"B", false⟩ := by
    simp [probe, checkMacOSSupport, h20, hu20, hf20, hr20]
  have p30 : probe w 30 = ⟨"", false⟩ := by
    simp [probe, checkMacOSSupport, h30]
  have key : ∀ arrived : List gameResult, arrived.Perm ([10, 20, 30].map (probe w)) →
      writtenEntries (collect arrived).1 = ["A"] ∧
      writtenEntries (collect arrived).2 = ["B"] := by
    intro arrived hperm
    have hlist : ([10, 20, 30] : List Int).map (probe w) =
        [⟨"A", true⟩, ⟨"B", false⟩, ⟨"", false⟩] := by
      simp [p10, p20, p30]
    rw [hlist] at hperm
    have h1 : (partitionOf true arrived).Perm ["A"] := by
      have := (hperm.filter (fun r => r.supportsMac == true && r.name != "")).map
        gameResult.name
      simpa [partitionOf] using this
    have h2 : (partitionOf false arrived).Perm ["B"] := by
      have := (hperm.filter (fun r => r.supportsMac == false && r.name != "")).map
        gameResult.name
      simpa [partitionOf] using this
    rw [writtenEntries_collect_fst, writtenEntries_collect_snd]
    exact ⟨List.perm_singleton.1 h1, List.perm_singleton.1 h2⟩
  constructor
  · intro arrived hperm
    obtain ⟨e1, e2⟩ := key arrived hperm
    refine ⟨e1, e2, ?_, ?_⟩
    · rw [writeGames_eq_map, e1]; rfl
    · rw [writeGames_eq_map, e2]; rfl
  · intro sched hload hk hs hg hc1 hc2
    have hperm := arrivalOrder_perm sched (([10, 20, 30] : List Int).map (probe w))
    obtain ⟨e1, e2⟩ := key _ hperm
    have w1 : writeGames (collect (arrivalOrder sched
        (([10, 20, 30] : List Int).map (probe w)))).1 = ["A\n"] := by
      rw [writeGames_eq_map, e1]; rfl
    have w2 : writeGames (collect (arrivalOrder sched
        (([10, 20, 30] : List Int).map (probe w)))).2 = ["B\n"] := by
      rw [writeGames_eq_map, e2]; rfl
    simp only [List.map_cons, List.map_nil] at w1 w2
    simp [main, hload, hk, hs, hg, hc1, hc2, w1, w2]

/-- C5 in `exampleWorld`, for the arrival order 30, 20, 10 and for the run of
`main` under the schedule `[2, 0]`. -/
theorem C5_scenario_10_20_30_witness :
    probe exampleWorld 10 = ⟨"A", true⟩ ∧
    probe exampleWorld 20 = ⟨"B", false⟩ ∧
    probe exampleWorld 30 = ⟨"", false⟩ ∧
    writtenEntries (collect [probe exampleWorld 30, probe exampleWorld 20,
      probe exampleWorld 10]).1 = ["A"] ∧
    main exampleWorld [2, 0] =
      { fatal := none,
        requests := ["http://api.steampowered.com/IPlayerService/GetOwnedGames/v0001/?" ++
            "format=json&include_appinfo=True&key=key&steamid=76561",
          "https://store.steampowered.com/api/appdetails?appids=10",
          "https://store.steampowered.com/api/appdetails?appids=20",
          "https://store.steampowered.com/api/appdetails?appids=30"],
        launched := [10, 20, 30],
        files := [("mac_games.txt", ["A\n"]), ("non_mac_games.txt", ["B\n"])] } :=
  ⟨by decide, by decide, by decide,
   ((C5_scenario_10_20_30 exampleWorld "r10" "r20"
      (fun k => if k = "10" then some ⟨true, ⟨"A", ⟨true⟩⟩⟩ else none)
      (fun k => if k = "20" then some ⟨true, ⟨"B", ⟨false⟩⟩⟩ else none)
      (by decide) rfl (by decide) (by decide) rfl (by decide) (by decide)).1
      [probe exampleWorld 30, probe exampleWorld 20, probe exampleWorld 10]
      (by decide)).1,
   by decide⟩

/-- C4: for every list of owned games (N of them, N = 0 included) and every
interleaving `sched` of the main goroutine, the N probe goroutines and the
closer, leading from the start of line 59 to a state `s`: nothing has panicked;
the capacity of `resultChan` is N; a probe goroutine standing at its send finds
the channel open and the buffer not full, so its send is enabled; the channel
is closed only when the counter of `wg` is back to zero and all N probe
goroutines have sent and ended; what has been received or is buffered is,
counted with multiplicity, part of the results of the launched probes; unless
the collector is past its loop some goroutine can take a step; the
interleaving has at most 6N + 4 steps, the collector is past its loop exactly
when it has 6N + 4, and it can always be continued to that point. Once the
collector is past its loop it has received exactly N results, a permutation of
the results of the N probes (one each, none lost, none twice), `macGames` and
`nonMacGames` are the collected lists, the buffer is empty and no goroutine
has a step left. -/
theorem C4_collector_receives_every_result (w : World) (steamGames : List SteamGame)
    (sched : List Thread) (s : Fanout)
    (hrun : runSched w (initFanout steamGames) sched = some s) :
    s.panicked = false ∧
    s.cap = steamGames.length ∧
    (∀ i g r, s.probes[i]? = some g → g.pc = ProbePc.sending r →
      s.closed = false ∧ s.buffer.length < s.cap ∧
      (step w s (Thread.probe i)).isSome = true) ∧
    (s.closed = true →
      s.wg = 0 ∧ s.probes.length = steamGames.length ∧
      ∀ g ∈ s.probes, g.pc = ProbePc.exited) ∧
    (s.received ++ s.buffer).Subperm ((steamGames.map SteamGame.AppID).map (probe w)) ∧
    (s.mainPc ≠ MainPc.collected → ∃ t, (step w s t).isSome = true) ∧
    sched.length ≤ 6 * steamGames.length + 4 ∧
    (s.mainPc = MainPc.collected ↔ sched.length = 6 * steamGames.length + 4) ∧
    (∃ rest s', runSched w s rest = some s' ∧ s'.mainPc = MainPc.collected) ∧
    (s.mainPc = MainPc.collected →
      s.received.Perm ((steamGames.map SteamGame.AppID).map (probe w)) ∧
      s.received.length = steamGames.length ∧
      (s.macGames, s.nonMacGames) = collect s.received ∧
      s.buffer = [] ∧
      ∀ t, step w s t = none) := by
  obtain ⟨hinit, hsteps⟩ := inv_init w steamGames
  obtain ⟨h, hlen⟩ := inv_runSched w _ sched _ s hinit hrun
  rw [hsteps] at hlen
  have hcap : s.cap = steamGames.length := by simpa using h.cap_eq
  refine ⟨h.noPanic, hcap, ?_, ?_, ?_, progress w _ s h, by omega, ?_,
    exists_completion w _ (stepsLeft s) s h rfl, ?_⟩
  · intro i g r hi hpc
    obtain ⟨hopen, hroom⟩ := send_enabled w _ s h g r (List.getElem?_mem hi) hpc
    refine ⟨hopen, hroom, ?_⟩
    simp [step, h.noPanic, stepProbe, hi, hpc, hopen, hroom]
  · intro hc
    obtain ⟨hids, hex⟩ := closed_all_exited w _ s h hc
    refine ⟨h.closing_wg (Or.inr (h.closed_iff.1 hc)), ?_, hex⟩
    have := congrArg List.length hids
    simpa using this
  · have hsub : (s.probes.map Goroutine.appID).Sublist (steamGames.map SteamGame.AppID) := by
      have := h.ids_eq
      rw [← this]
      exact List.sublist_append_left _ _
    exact h.perm.subperm.trans
      ((sentResults_sublist w s.probes).trans (hsub.map (probe w))).subperm
  · constructor
    · intro hm
      have := (final_state w _ s h hm).2.2.1
      omega
    · intro hl
      exact collected_of_stepsLeft_zero s (by omega)
  · intro hm
    obtain ⟨hperm, hb, _, hnone⟩ := final_state w _ s h hm
    refine ⟨hperm, ?_, h.acc, hb, hnone⟩
    simpa using hperm.length_eq

/-- C4 in `exampleWorld` for the owned games 10 and 20, under an interleaving
in which the result of the second probe arrives first. -/
theorem C4_collector_receives_every_result_witness :
    runSched exampleWorld (initFanout [⟨10⟩, ⟨20⟩])
        [Thread.main, Thread.main, Thread.main, Thread.main, Thread.probe 1, Thread.probe 1,
         Thread.probe 0, Thread.main, Thread.main, Thread.probe 0, Thread.probe 0,
         Thread.probe 1, Thread.closer, Thread.closer, Thread.main, Thread.main] =
      some { mainPc := MainPc.collected,
             probes := [⟨10, ProbePc.exited⟩, ⟨20, ProbePc.exited⟩],
             closer := some CloserPc.exited, wg := 0, cap := 2, buffer := [], closed := true,
             received := [⟨"B", false⟩, ⟨"A", true⟩],
             macGames := ["A"], nonMacGames := ["B"], panicked := false } ∧
    ([⟨"B", false⟩, ⟨"A", true⟩] : List gameResult).Perm
      (([⟨10⟩, ⟨20⟩] : List SteamGame).map SteamGame.AppID |>.map (probe exampleWorld)) :=
  ⟨by decide,
   ((C4_collector_receives_every_result exampleWorld [⟨10⟩, ⟨20⟩]
      [Thread.main, Thread.main, Thread.main, Thread.main, Thread.probe 1, Thread.probe 1,
       Thread.probe 0, Thread.main, Thread.main, Thread.probe 0, Thread.probe 0,
       Thread.probe 1, Thread.closer, Thread.closer, Thread.main, Thread.main]
      { mainPc := MainPc.collected,
        probes := [⟨10, ProbePc.exited⟩, ⟨20, ProbePc.exited⟩],
        closer := some CloserPc.exited, wg := 0, cap := 2, buffer := [], closed := true,
        received := [⟨"B", false⟩, ⟨"A", true⟩],
        macGames := ["A"], nonMacGames := ["B"], panicked := false }
      (by decide)).2.2.2.2.2.2.2.2.2 rfl).1⟩

end MyNonMacosGames
